import Mathlib

/-!
Verification of the cleaning and training pipelines of
`session_2/data_preprocessing.ipynb`.

The first notebook cleans a customer table with pandas: missing-value fills,
invalid-value repair, clipping, rounding, and fixed-edge / quantile binning.
The second trains a three-layer dense classifier, evaluates accuracy, and
round-trips the parameters through a checkpoint.

Columns of nullable numbers are modelled as `List (Option ℚ)` (a `none` is a
pandas null/NaN); statistics that pandas leaves undefined on empty data are
`Option ℚ`.  Matrices of the network are lists of rows over `ℚ`.
-/

namespace DataPrep

/-- Non-null values of a column, in order (pandas skips nulls when computing
a statistic such as `median()` or `mean()`). -/
def somes : List (Option ℚ) → List ℚ
  | [] => []
  | none :: t => somes t
  | some v :: t => v :: somes t

/-- Values of `Series.fillna(v)`: when the fill statistic is defined, every
null becomes `v`; filling with an undefined statistic (NaN) leaves the
column unchanged, which is what pandas does when the fill value is NaN. -/
def fillna (v : Option ℚ) (col : List (Option ℚ)) : List (Option ℚ) :=
  match v with
  | none => col
  | some s => col.map (fun x => some (x.getD s))

/-- Sorted copy of a column's values, as used by `median` and `quantile`. -/
def sortCol (xs : List ℚ) : List ℚ := xs.insertionSort (· ≤ ·)

/-- Values of `Series.median()`: sort the non-null values; an odd count takes
the middle element, an even count averages the two middle elements; the
statistic is undefined (NaN) on an empty list. -/
def median (xs : List ℚ) : Option ℚ :=
  if xs = [] then none
  else if xs.length % 2 = 1 then some ((sortCol xs).getD (xs.length / 2) 0)
  else some (((sortCol xs).getD (xs.length / 2 - 1) 0 + (sortCol xs).getD (xs.length / 2) 0) / 2)

/-- Values of `Series.mean()`: sum of the non-null values divided by their
count; undefined (NaN) on an empty list. -/
def mean (xs : List ℚ) : Option ℚ :=
  if xs = [] then none
  else some (xs.sum / xs.length)

/-- Values of `Series.apply(lambda x: None if x < 0 else x)`: strictly
negative entries become null, everything else (nulls included) is kept. -/
def noneIfNeg (col : List (Option ℚ)) : List (Option ℚ) :=
  col.map (fun x => x.bind (fun v => if v < 0 then none else some v))

/-- Missing-value handling for `age`: fill nulls with the column median. -/
def fillAge (col : List (Option ℚ)) : List (Option ℚ) :=
  fillna (median (somes col)) col

/-- Invalid-value handling for `age`: null out negatives, then fill the new
nulls with the median of the column as it stands at that point. -/
def fixAge (col : List (Option ℚ)) : List (Option ℚ) :=
  let c := noneIfNeg col
  fillna (median (somes c)) c

/-- Full `age` repair, in source order: fill by median, then fix invalids. -/
def repairAge (col : List (Option ℚ)) : List (Option ℚ) :=
  fixAge (fillAge col)

/-- Missing-value handling for `purchase_amount`: fill nulls with the mean. -/
def fillPurchase (col : List (Option ℚ)) : List (Option ℚ) :=
  fillna (mean (somes col)) col

/-- Invalid-value handling for `purchase_amount`: null out negatives, then
fill the new nulls with the mean of the column as it stands. -/
def fixPurchase (col : List (Option ℚ)) : List (Option ℚ) :=
  let c := noneIfNeg col
  fillna (mean (somes c)) c

/-- Full `purchase_amount` repair: fill by mean, then fix invalids. -/
def repairPurchase (col : List (Option ℚ)) : List (Option ℚ) :=
  fixPurchase (fillPurchase col)

/-- Value-level clamp of `Series.clip(lower, upper)`. -/
def clipVal (lo hi v : ℚ) : ℚ := min (max v lo) hi

/-- Column `df["age"].clip(lower=18, upper=90)`: clamp every non-null entry;
nulls stay null (clip skips NaN). -/
def clipAge (col : List (Option ℚ)) : List (Option ℚ) :=
  col.map (fun x => x.map (clipVal 18 90))

/-- Round-half-to-even of a rational to the nearest integer, the rounding
used by numpy and pandas `round`. -/
def roundHalfEven (x : ℚ) : ℤ :=
  if x - ⌊x⌋ < 1/2 then ⌊x⌋
  else if 1/2 < x - ⌊x⌋ then ⌊x⌋ + 1
  else if ⌊x⌋ % 2 = 0 then ⌊x⌋ else ⌊x⌋ + 1

/-- Column `Series.round(2)`: round every non-null entry to two decimal
places. -/
def round2 (col : List (Option ℚ)) : List (Option ℚ) :=
  col.map (fun x => x.map (fun v => (roundHalfEven (v * 100) : ℚ) / 100))

/-- Column `round().astype(int)` for `satisfaction_score`: round every
non-null entry to the nearest integer (the value stays integral). -/
def roundScore (col : List (Option ℚ)) : List (Option ℚ) :=
  col.map (fun x => x.map (fun v => (roundHalfEven v : ℚ)))

/-- Text-column `fillna` with a literal placeholder string. -/
def fillnaStr (s : String) (col : List (Option String)) : List (Option String) :=
  col.map (fun x => some (x.getD s))

/-- The four labels of `pd.qcut(..., labels=["Low","Medium","High","Premium"])`. -/
inductive PurchaseLabel where
  | Low
  | Medium
  | High
  | Premium
deriving DecidableEq

/-- The five labels of `pd.cut(..., labels=["18-25","26-35","36-50","51-65","65+"])`. -/
inductive AgeLabel where
  | a18_25
  | a26_35
  | a36_50
  | a51_65
  | a65plus
deriving DecidableEq

/-- Linear-interpolation quantile, the numpy default used by `pd.qcut`:
with `h = (n - 1) * p`, interpolate between the sorted values at positions
`⌊h⌋` and `⌊h⌋ + 1`. -/
def quantile (xs : List ℚ) (p : ℚ) : ℚ :=
  let s := sortCol xs
  let h : ℚ := ((xs.length - 1 : ℕ) : ℚ) * p
  let i : ℕ := (⌊h⌋).toNat
  let lo := s.getD i 0
  lo + (h - ⌊h⌋) * (s.getD (i + 1) lo - lo)

/-- Bin of one value under `pd.qcut(xs, q=4, labels=...)`: compare against
the three inner quartile edges; a tie at an edge goes to the lower bin. -/
def qcutLabel (xs : List ℚ) (v : ℚ) : PurchaseLabel :=
  if v ≤ quantile xs (1/4) then .Low
  else if v ≤ quantile xs (2/4) then .Medium
  else if v ≤ quantile xs (3/4) then .High
  else .Premium

/-- The `pd.qcut(xs, q=4, labels=...)` column on fully non-null data. -/
def qcut4 (xs : List ℚ) : List PurchaseLabel := xs.map (qcutLabel xs)

/-- Derivation of `purchase_category`: quartile edges come from the non-null
values of the current column; a null stays null. -/
def purchaseCategory (col : List (Option ℚ)) : List (Option PurchaseLabel) :=
  col.map (fun x => x.map (qcutLabel (somes col)))

/-- The bin of one age under
`pd.cut(age, bins=[17, 25, 35, 50, 65, 90], labels=...)`: half-open bins
`(17,25], (25,35], (35,50], (50,65], (65,90]`; out-of-range values get null. -/
def ageGroup (v : ℚ) : Option AgeLabel :=
  if 17 < v ∧ v ≤ 25 then some .a18_25
  else if 25 < v ∧ v ≤ 35 then some .a26_35
  else if 35 < v ∧ v ≤ 50 then some .a36_50
  else if 50 < v ∧ v ≤ 65 then some .a51_65
  else if 65 < v ∧ v ≤ 90 then some .a65plus
  else none

/-- Derivation of `age_group` on the (possibly null) age column. -/
def ageGroupCol (col : List (Option ℚ)) : List (Option AgeLabel) :=
  col.map (fun x => x.bind ageGroup)

/-- Calendar date of `purchase_date`. -/
structure Date where
  year : ℕ
  month : ℕ
  day : ℕ
deriving DecidableEq

/-- The customer table, one list per column, as generated by the notebook. -/
structure Table where
  customer_id : List ℕ
  name : List String
  age : List (Option ℚ)
  email : List (Option String)
  purchase_amount : List (Option ℚ)
  purchase_date : List Date
  category : List (Option String)
  satisfaction_score : List (Option ℚ)
  phone_number : List String

/-- Sections 2 to 4 of the cleaning notebook, in source order: fill `email`
and `category` with literal strings, fill `satisfaction_score` / `age` /
`purchase_amount` by statistic, null out and refill negatives, clip `age`
to `[18, 90]`, round `purchase_amount` to two decimals, round
`satisfaction_score` to an integer. -/
def cleanTable (t : Table) : Table :=
  { t with
    email := fillnaStr "unknown" t.email
    category := fillnaStr "Other" t.category
    satisfaction_score :=
      roundScore (fillna (median (somes t.satisfaction_score)) t.satisfaction_score)
    age := clipAge (repairAge t.age)
    purchase_amount := round2 (repairPurchase t.purchase_amount) }

/-- The cleaned table together with the three derived feature columns. -/
structure CleanedTable where
  base : Table
  purchase_month : List ℕ
  purchase_category : List (Option PurchaseLabel)
  age_group : List (Option AgeLabel)

/-- Section 5 feature engineering: `purchase_month` from the date column,
`purchase_category` by `pd.qcut`, `age_group` by `pd.cut`. -/
def deriveFeatures (t : Table) : CleanedTable :=
  { base := t
    purchase_month := t.purchase_date.map Date.month
    purchase_category := purchaseCategory t.purchase_amount
    age_group := ageGroupCol t.age }

/-- The whole cleaning pipeline: repair and constraints, then derivation. -/
def pipeline (t : Table) : CleanedTable := deriveFeatures (cleanTable t)

/-- Count of `len(df[df.duplicated()])`: rows equal to an earlier row. -/
def duplicateRecords {α : Type} [DecidableEq α] (rows : List α) : ℕ :=
  rows.length - rows.dedup.length

/-- Dot product of a weight row with an input vector. -/
def dot (w x : List ℚ) : ℚ := ((w.zip x).map (fun p => p.1 * p.2)).sum

/-- A fully connected layer `nn.Linear`: one output per weight row, plus the
matching bias. -/
def linear (W : List (List ℚ)) (b : List ℚ) (x : List ℚ) : List ℚ :=
  (W.zip b).map (fun wb => dot wb.1 x + wb.2)

/-- Elementwise `nn.ReLU`. -/
def relu (x : List ℚ) : List ℚ := x.map (fun v => max v 0)

/-- Parameters of the three-layer `NeuralNetwork` module: weights and biases
of `fc1`, `fc2`, `fc3`. -/
structure NeuralNetwork where
  fc1w : List (List ℚ)
  fc1b : List ℚ
  fc2w : List (List ℚ)
  fc2b : List ℚ
  fc3w : List (List ℚ)
  fc3b : List ℚ
deriving DecidableEq

/-- The `forward` pass: flattened input through `fc1`, ReLU, `fc2`, ReLU,
`fc3`; no activation on the output layer (logits). -/
def forward (m : NeuralNetwork) (x : List ℚ) : List ℚ :=
  linear m.fc3w m.fc3b (relu (linear m.fc2w m.fc2b (relu (linear m.fc1w m.fc1b x))))

/-- The full parameter state written by `torch.save(model.state_dict(), ...)`.
The file transport is modelled as the state dict itself: the persistence
format is out of scope, and its contract is that the bytes read back equal
the bytes written. -/
structure StateDict where
  fc1w : List (List ℚ)
  fc1b : List ℚ
  fc2w : List (List ℚ)
  fc2b : List ℚ
  fc3w : List (List ℚ)
  fc3b : List ℚ

/-- Values of `model.state_dict()`: every weight and bias, nothing partial. -/
def state_dict (m : NeuralNetwork) : StateDict :=
  ⟨m.fc1w, m.fc1b, m.fc2w, m.fc2b, m.fc3w, m.fc3b⟩

/-- Behaviour of `loaded_model.load_state_dict(sd)`: overwrite every
parameter of the freshly constructed model with the checkpoint values. -/
def load_state_dict (m : NeuralNetwork) (sd : StateDict) : NeuralNetwork :=
  { fc1w := sd.fc1w, fc1b := sd.fc1b, fc2w := sd.fc2w, fc2b := sd.fc2b,
    fc3w := sd.fc3w, fc3b := sd.fc3b }

/-- One test-loader batch: samples paired with their true labels. -/
abbrev Batch := List (List ℚ × ℕ)

/-- Index of the first maximal logit, as returned by `torch.max(outputs, 1)`. -/
def argmaxAux : ℕ → ℕ × ℚ → List ℚ → ℕ × ℚ
  | _, best, [] => best
  | i, best, x :: xs => argmaxAux (i + 1) (if best.2 < x then (i, x) else best) xs

/-- Arg-max over a logit vector (0 on an empty vector). -/
def argmaxIdx (xs : List ℚ) : ℕ :=
  match xs with
  | [] => 0
  | x :: rest => (argmaxAux 1 (0, x) rest).1

/-- One iteration of the `evaluate_model` loop on a batch: add the number of
samples whose arg-max predicted class equals the true label to `correct`
and the batch size to `total`. -/
def stepCount (m : NeuralNetwork) (acc : ℕ × ℕ) (batch : Batch) : ℕ × ℕ :=
  (acc.1 + batch.countP (fun s => argmaxIdx (forward m s.1) == s.2),
   acc.2 + batch.length)

/-- The counting loop of `evaluate_model`: one pass over every batch of the
test loader, accumulating `(correct, total)`. -/
def evaluate_counts (m : NeuralNetwork) (loader : List Batch) : ℕ × ℕ :=
  loader.foldl (stepCount m) (0, 0)

/-- The accuracy `100 * correct / total` reported by `evaluate_model`,
guarded: the division is undefined when the loader contributed no samples,
so the result is an `Option`. -/
def evaluate_model (m : NeuralNetwork) (loader : List Batch) : Option ℚ :=
  let c := evaluate_counts m loader
  if c.2 = 0 then none else some (100 * c.1 / c.2)

/-- Written from the wording of the repair claim, for comparison with
`repairAge`: here the second-pass fill statistic is the median of the column
as it stands after the first fill, negatives still included in the
statistic. -/
def repairAgeByClaim (col : List (Option ℚ)) : List (Option ℚ) :=
  let s1 := fillAge col
  fillna (median (somes s1)) (noneIfNeg s1)

/-- Boolean check that an entry is non-null and inside `[lo, hi]`. -/
def inRange (lo hi : ℚ) : Option ℚ → Bool
  | some v => decide (lo ≤ v) && decide (v ≤ hi)
  | none => false

/-- Boolean check that an entry is non-null and non-negative. -/
def isNonnegVal : Option ℚ → Bool
  | some v => decide (0 ≤ v)
  | none => false

/-- A one-row concrete customer table used to instantiate table theorems. -/
def sampleTable : Table where
  customer_id := [1]
  name := ["Customer_1"]
  age := [some 20]
  email := [some "customer_1@email.com"]
  purchase_amount := [some 5]
  purchase_date := [⟨2023, 1, 1⟩]
  category := [some "Books"]
  satisfaction_score := [some 3]
  phone_number := ["+1-555-0001"]

/-- A tiny concrete model used to instantiate evaluation theorems. -/
def sampleModel : NeuralNetwork where
  fc1w := [[1]]
  fc1b := [0]
  fc2w := [[1]]
  fc2b := [0]
  fc3w := [[0], [1]]
  fc3b := [0, 0]

/-- A one-batch, one-sample test loader whose label the sample model
predicts correctly. -/
def sampleLoader : List Batch := [[([1], 1)]]

/-! Helper lemmas. -/

theorem toNat_lit0 : (0 : ℤ).toNat = 0 := rfl

theorem toNat_lit1 : (1 : ℤ).toNat = 1 := rfl

theorem toNat_lit2 : (2 : ℤ).toNat = 2 := rfl

theorem toNat_lit3 : (3 : ℤ).toNat = 3 := rfl

theorem mem_somes {c : List (Option ℚ)} {v : ℚ} : v ∈ somes c ↔ some v ∈ c := by
  induction c with
  | nil => simp [somes]
  | cons x t ih => cases x <;> simp [somes, ih]

theorem somes_noneIfNeg (c : List (Option ℚ)) :
    somes (noneIfNeg c) = (somes c).filter (fun v => decide (0 ≤ v)) := by
  induction c with
  | nil => rfl
  | cons x t ih =>
    cases x with
    | none => simpa [noneIfNeg, somes] using ih
    | some v =>
      rcases lt_or_le v 0 with h | h
      · simp [noneIfNeg, somes, h, not_le.mpr h, List.filter_cons] at ih ⊢
        simpa [noneIfNeg] using ih
      · simp [noneIfNeg, somes, not_lt.mpr h, h, List.filter_cons] at ih ⊢
        simpa [noneIfNeg] using ih

theorem clipVal_mem (v : ℚ) : 18 ≤ clipVal 18 90 v ∧ clipVal 18 90 v ≤ 90 := by
  unfold clipVal
  constructor
  · exact le_min (le_max_right v 18) (by norm_num)
  · exact min_le_right _ _

theorem clipVal_idem (v : ℚ) : clipVal 18 90 (clipVal 18 90 v) = clipVal 18 90 v := by
  unfold clipVal
  rcases le_total v 18 with h | h <;> rcases le_total v 90 with h2 | h2 <;>
    simp [min_def, max_def] <;> split_ifs <;> linarith

/-! Claim theorems. -/

/-- C1 counterexample: on the age column `[-4, 1, 2]` the pipeline's second
fill uses the median of the once-filled column with the negatives already
nulled out (giving 3/2), not the median of the once-filled column itself
(which would give 1), so `repairAge` differs from the claim's wording. -/
theorem repairAge_counterexample_C1 :
    repairAge [some (-4), some 1, some 2] = [some (3/2), some 1, some 2] ∧
      repairAgeByClaim [some (-4), some 1, some 2] = [some 1, some 1, some 2] ∧
      repairAge [some (-4), some 1, some 2] ≠
        repairAgeByClaim [some (-4), some 1, some 2] := by
  refine ⟨?_, ?_, ?_⟩ <;>
    norm_num [repairAge, repairAgeByClaim, fixAge, fillAge, fillna, somes, noneIfNeg,
      median, sortCol, List.insertionSort, List.orderedInsert, List.cons_ne_nil]

/-- C1 amended: the statistic of the second fill pass is the median (mean for
purchase amounts) of the once-filled column with the strictly negative values
excluded — equivalently, of the non-negative values remaining after the
negatives are nulled out — not of the original column and not of the
once-filled column with negatives included. -/
theorem repair_second_pass_statistic (col : List (Option ℚ)) :
    repairAge col =
      fillna (median ((somes (fillAge col)).filter (fun v => decide (0 ≤ v))))
        (noneIfNeg (fillAge col)) ∧
    repairPurchase col =
      fillna (mean ((somes (fillPurchase col)).filter (fun v => decide (0 ≤ v))))
        (noneIfNeg (fillPurchase col)) := by
  constructor
  · show fixAge (fillAge col) = _
    rw [fixAge, somes_noneIfNeg]
  · show fixPurchase (fillPurchase col) = _
    rw [fixPurchase, somes_noneIfNeg]

/-- C3: on an all-null age column the repair step raises nothing and leaves
every entry null — the median is undefined, so both fill passes are no-ops;
no `DataQualityError` exists anywhere in the source. -/
theorem repairAge_all_null_silent :
    repairAge [none, none, none] = [none, none, none] ∧
      none ∈ repairAge [none, none, none] := by
  constructor
  · norm_num [repairAge, fixAge, fillAge, fillna, somes, noneIfNeg, median, sortCol]
  · norm_num [repairAge, fixAge, fillAge, fillna, somes, noneIfNeg, median, sortCol]

/-- C4: the age clamp to `[18, 90]` is idempotent — re-applying
`clip(lower=18, upper=90)` to an already-clipped column is a no-op. -/
theorem clipAge_idempotent (col : List (Option ℚ)) :
    clipAge (clipAge col) = clipAge col := by
  simp [clipAge, List.map_map, Function.comp_def, Option.map_map, clipVal_idem]

/-- C7: saving the full parameter state and loading it into a freshly
constructed model of the same topology yields a model whose output on any
input is identical to the output of the original model. -/
theorem save_load_roundtrip (trained fresh : NeuralNetwork) (x : List ℚ) :
    forward (load_state_dict fresh (state_dict trained)) x = forward trained x := rfl

/-- C9: on a test loader that yields no batches, `total` stays 0 and the
guarded accuracy division returns `none` — the error branch is reachable. -/
theorem evaluate_model_empty_loader (m : NeuralNetwork) :
    evaluate_model m [] = none := rfl

/-- C5: on the clamped domain `[18, 90]` the `age_group` assignment is total
and is determined by the value alone through the fixed bin edges
`(17,25], (25,35], (35,50], (50,65], (65,90]`: the result is always a label,
and it is each given label exactly on the corresponding edge interval. -/
theorem ageGroup_total (v : ℚ) (h18 : 18 ≤ v) (h90 : v ≤ 90) :
    (ageGroup v).isSome = true ∧
    (ageGroup v = some AgeLabel.a18_25 ↔ v ≤ 25) ∧
    (ageGroup v = some AgeLabel.a26_35 ↔ 25 < v ∧ v ≤ 35) ∧
    (ageGroup v = some AgeLabel.a36_50 ↔ 35 < v ∧ v ≤ 50) ∧
    (ageGroup v = some AgeLabel.a51_65 ↔ 50 < v ∧ v ≤ 65) ∧
    (ageGroup v = some AgeLabel.a65plus ↔ 65 < v) := by
  have h17 : (17:ℚ) < v := by linarith
  unfold ageGroup
  split_ifs with a b c d e <;> simp_all <;> (repeat' constructor) <;> intros <;> linarith

/-- Witness for C5 at the concrete age 30. -/
theorem ageGroup_total_witness :
    (ageGroup 30).isSome = true ∧
    (ageGroup 30 = some AgeLabel.a18_25 ↔ (30:ℚ) ≤ 25) ∧
    (ageGroup 30 = some AgeLabel.a26_35 ↔ (25:ℚ) < 30 ∧ (30:ℚ) ≤ 35) ∧
    (ageGroup 30 = some AgeLabel.a36_50 ↔ (35:ℚ) < 30 ∧ (30:ℚ) ≤ 50) ∧
    (ageGroup 30 = some AgeLabel.a51_65 ↔ (50:ℚ) < 30 ∧ (30:ℚ) ≤ 65) ∧
    (ageGroup 30 = some AgeLabel.a65plus ↔ (65:ℚ) < 30) :=
  ageGroup_total 30 (by norm_num) (by norm_num)

theorem foldl_stepCount (m : NeuralNetwork) (loader : List Batch) :
    ∀ a : ℕ × ℕ, loader.foldl (stepCount m) a =
      (a.1 + (loader.map
          (fun b => b.countP (fun s => argmaxIdx (forward m s.1) == s.2))).sum,
       a.2 + (loader.map List.length).sum) := by
  induction loader with
  | nil => intro a; simp
  | cons b t ih =>
    intro a
    simp only [List.foldl_cons, List.map_cons, List.sum_cons, ih, stepCount, Prod.ext_iff]
    constructor <;> omega

theorem evaluate_counts_eq (m : NeuralNetwork) (loader : List Batch) :
    evaluate_counts m loader =
      ((loader.map
          (fun b => b.countP (fun s => argmaxIdx (forward m s.1) == s.2))).sum,
       (loader.map List.length).sum) := by
  rw [evaluate_counts, foldl_stepCount]
  simp

/-- C8: on a test set of positive size N, `evaluate_model` runs every batch
once — `total` is exactly the sum of the batch sizes, i.e. N — counts
arg-max matches into `correct ≤ total`, and reports the accuracy
`100 * correct / total`, a value in `[0, 100]`.  The model is taken
read-only, so no parameter is updated. -/
theorem evaluate_model_spec (m : NeuralNetwork) (loader : List Batch)
    (hN : 0 < (loader.map List.length).sum) :
    (evaluate_counts m loader).2 = (loader.map List.length).sum ∧
    (evaluate_counts m loader).1 ≤ (evaluate_counts m loader).2 ∧
    evaluate_model m loader =
      some (100 * ((evaluate_counts m loader).1 : ℚ) / ((evaluate_counts m loader).2 : ℚ)) ∧
    0 ≤ 100 * ((evaluate_counts m loader).1 : ℚ) / ((evaluate_counts m loader).2 : ℚ) ∧
    100 * ((evaluate_counts m loader).1 : ℚ) / ((evaluate_counts m loader).2 : ℚ) ≤ 100 := by
  have htot : (evaluate_counts m loader).2 = (loader.map List.length).sum := by
    rw [evaluate_counts_eq]
  have hle : (evaluate_counts m loader).1 ≤ (evaluate_counts m loader).2 := by
    rw [evaluate_counts_eq]
    exact List.sum_le_sum (fun b _ => List.countP_le_length _)
  have hpos : 0 < (evaluate_counts m loader).2 := htot ▸ hN
  have hposq : (0:ℚ) < ((evaluate_counts m loader).2 : ℚ) := by exact_mod_cast hpos
  refine ⟨htot, hle, ?_, ?_, ?_⟩
  · simp only [evaluate_model]
    rw [if_neg (Nat.pos_iff_ne_zero.mp hpos)]
  · positivity
  · rw [div_le_iff₀ hposq]
    have hc : ((evaluate_counts m loader).1 : ℚ) ≤ ((evaluate_counts m loader).2 : ℚ) := by
      exact_mod_cast hle
    linarith

/-- Witness for C8 on the concrete sample model and one-sample loader. -/
theorem evaluate_model_spec_witness :
    (evaluate_counts sampleModel sampleLoader).2 = (sampleLoader.map List.length).sum ∧
    (evaluate_counts sampleModel sampleLoader).1 ≤ (evaluate_counts sampleModel sampleLoader).2 ∧
    evaluate_model sampleModel sampleLoader =
      some (100 * ((evaluate_counts sampleModel sampleLoader).1 : ℚ) /
        ((evaluate_counts sampleModel sampleLoader).2 : ℚ)) ∧
    0 ≤ 100 * ((evaluate_counts sampleModel sampleLoader).1 : ℚ) /
        ((evaluate_counts sampleModel sampleLoader).2 : ℚ) ∧
    100 * ((evaluate_counts sampleModel sampleLoader).1 : ℚ) /
        ((evaluate_counts sampleModel sampleLoader).2 : ℚ) ≤ 100 :=
  evaluate_model_spec sampleModel sampleLoader (by norm_num [sampleLoader])

theorem median_isSome {xs : List ℚ} (h : xs ≠ []) : ∃ s, median xs = some s := by
  unfold median
  rw [if_neg h]
  split_ifs <;> exact ⟨_, rfl⟩

theorem mean_isSome {xs : List ℚ} (h : xs ≠ []) : ∃ s, mean xs = some s := by
  unfold mean
  rw [if_neg h]
  exact ⟨_, rfl⟩

theorem mean_eq {xs : List ℚ} (h : xs ≠ []) : mean xs = some (xs.sum / xs.length) := by
  simp [mean, h]

theorem mem_fillna_some {s : ℚ} {col : List (Option ℚ)} {o : Option ℚ}
    (ho : o ∈ fillna (some s) col) : ∃ x ∈ col, o = some (x.getD s) := by
  simp only [fillna, List.mem_map] at ho
  obtain ⟨x, hx, rfl⟩ := ho
  exact ⟨x, hx, rfl⟩

theorem noneIfNeg_nonneg {c : List (Option ℚ)} {v : ℚ}
    (h : some v ∈ noneIfNeg c) : 0 ≤ v := by
  simp only [noneIfNeg, List.mem_map] at h
  obtain ⟨x, _, hx⟩ := h
  cases x with
  | none => simp at hx
  | some w =>
    by_cases hw : w < 0
    · simp [hw] at hx
    · simp [hw] at hx
      simpa [hx.symm] using not_lt.mp hw

theorem mean_nonneg_of_mem {xs : List ℚ} (h : xs ≠ []) (hall : ∀ x ∈ xs, 0 ≤ x)
    {s : ℚ} (hs : mean xs = some s) : 0 ≤ s := by
  rw [mean_eq h] at hs
  obtain rfl : xs.sum / xs.length = s := by injection hs
  exact div_nonneg (List.sum_nonneg hall) (by positivity)

theorem roundHalfEven_nonneg {x : ℚ} (hx : 0 ≤ x) : 0 ≤ roundHalfEven x := by
  unfold roundHalfEven
  have h0 : (0:ℤ) ≤ ⌊x⌋ := Int.floor_nonneg.mpr hx
  split_ifs <;> omega

theorem cleanTable_invariant (t : Table)
    (hAge : somes t.age ≠ [])
    (hAge2 : somes (noneIfNeg (fillAge t.age)) ≠ [])
    (hPur : somes t.purchase_amount ≠ [])
    (hPur2 : somes (noneIfNeg (fillPurchase t.purchase_amount)) ≠ [])
    (hSat : somes t.satisfaction_score ≠ []) :
    ((cleanTable t).age.all (inRange 18 90) = true) ∧
    ((cleanTable t).purchase_amount.all isNonnegVal = true) ∧
    ((cleanTable t).satisfaction_score.all Option.isSome = true) ∧
    ((cleanTable t).email.all Option.isSome = true) ∧
    ((cleanTable t).category.all Option.isSome = true) := by
  refine ⟨?_, ?_, ?_, ?_, ?_⟩
  · -- age: repair fills every null, then clip forces the range
    rw [List.all_eq_true]
    intro o ho
    obtain ⟨s2, hs2⟩ := median_isSome hAge2
    simp only [cleanTable] at ho
    simp only [clipAge, List.mem_map] at ho
    obtain ⟨x, hx, rfl⟩ := ho
    obtain ⟨y, _, rfl⟩ :=
      mem_fillna_some (s := s2) (by simpa [repairAge, fixAge, hs2] using hx)
    have := clipVal_mem ((y.getD s2))
    simp [inRange, this.1, this.2]
  · -- purchase: repair fills every null with non-negative values, round keeps them
    rw [List.all_eq_true]
    intro o ho
    obtain ⟨s2, hs2⟩ := mean_isSome hPur2
    have hs2nn : 0 ≤ s2 :=
      mean_nonneg_of_mem hPur2 (fun x hx => noneIfNeg_nonneg (mem_somes.mp hx)) hs2
    simp only [cleanTable] at ho
    simp only [round2, List.mem_map] at ho
    obtain ⟨x, hx, rfl⟩ := ho
    obtain ⟨y, hy, rfl⟩ :=
      mem_fillna_some (s := s2) (by simpa [repairPurchase, fixPurchase, hs2] using hx)
    have hval : 0 ≤ y.getD s2 := by
      cases y with
      | some w => simpa using noneIfNeg_nonneg hy
      | none => simpa using hs2nn
    have hr : (0:ℚ) ≤ (roundHalfEven (y.getD s2 * 100) : ℚ) / 100 := by
      apply div_nonneg _ (by norm_num)
      exact_mod_cast roundHalfEven_nonneg (by positivity)
    simp [isNonnegVal, hr]
  · -- satisfaction: fill by median leaves no null, rounding keeps entries
    rw [List.all_eq_true]
    intro o ho
    obtain ⟨s, hs⟩ := median_isSome hSat
    simp only [cleanTable, roundScore, List.mem_map] at ho
    obtain ⟨x, hx, rfl⟩ := ho
    obtain ⟨y, _, rfl⟩ := mem_fillna_some (s := s) (by simpa [hs] using hx)
    simp
  · rw [List.all_eq_true]
    intro o ho
    simp only [cleanTable, fillnaStr, List.mem_map] at ho
    obtain ⟨x, _, rfl⟩ := ho
    simp
  · rw [List.all_eq_true]
    intro o ho
    simp only [cleanTable, fillnaStr, List.mem_map] at ho
    obtain ⟨x, _, rfl⟩ := ho
    simp

theorem cleanTable_invariant_witness :
    ((cleanTable sampleTable).age.all (inRange 18 90) = true) ∧
    ((cleanTable sampleTable).purchase_amount.all isNonnegVal = true) ∧
    ((cleanTable sampleTable).satisfaction_score.all Option.isSome = true) ∧
    ((cleanTable sampleTable).email.all Option.isSome = true) ∧
    ((cleanTable sampleTable).category.all Option.isSome = true) :=
  cleanTable_invariant sampleTable
    (by norm_num [sampleTable, somes])
    (by norm_num [sampleTable, somes, noneIfNeg, fillAge, fillna, median, sortCol,
      List.insertionSort, List.orderedInsert])
    (by norm_num [sampleTable, somes])
    (by norm_num [sampleTable, somes, noneIfNeg, fillPurchase, fillna, mean])
    (by norm_num [sampleTable, somes])

theorem fillna_as_map (v : Option ℚ) (col : List (Option ℚ)) :
    ∃ f, fillna v col = col.map f := by
  cases v with
  | none => exact ⟨id, (List.map_id col).symm⟩
  | some s => exact ⟨fun x => some (x.getD s), rfl⟩

theorem age_col_map (col : List (Option ℚ)) :
    ∃ f, clipAge (repairAge col) = col.map f := by
  obtain ⟨f1, h1⟩ := fillna_as_map (median (somes col)) col
  have h2 : noneIfNeg (fillAge col) =
      col.map ((fun x => x.bind (fun v => if v < 0 then none else some v)) ∘ f1) := by
    rw [noneIfNeg, fillAge, h1, List.map_map]
  obtain ⟨f2, h3⟩ :=
    fillna_as_map (median (somes (noneIfNeg (fillAge col)))) (noneIfNeg (fillAge col))
  refine ⟨(fun x => x.map (clipVal 18 90)) ∘ f2 ∘
      ((fun x => x.bind (fun v => if v < 0 then none else some v)) ∘ f1), ?_⟩
  show clipAge (fillna (median (somes (noneIfNeg (fillAge col)))) (noneIfNeg (fillAge col))) = _
  rw [h3, h2, List.map_map, clipAge, List.map_map]

theorem purchase_col_map (col : List (Option ℚ)) :
    ∃ f, round2 (repairPurchase col) = col.map f := by
  obtain ⟨f1, h1⟩ := fillna_as_map (mean (somes col)) col
  have h2 : noneIfNeg (fillPurchase col) =
      col.map ((fun x => x.bind (fun v => if v < 0 then none else some v)) ∘ f1) := by
    rw [noneIfNeg, fillPurchase, h1, List.map_map]
  obtain ⟨f2, h3⟩ :=
    fillna_as_map (mean (somes (noneIfNeg (fillPurchase col)))) (noneIfNeg (fillPurchase col))
  refine ⟨(fun x => x.map (fun v => (roundHalfEven (v * 100) : ℚ) / 100)) ∘ f2 ∘
      ((fun x => x.bind (fun v => if v < 0 then none else some v)) ∘ f1), ?_⟩
  show round2
      (fillna (mean (somes (noneIfNeg (fillPurchase col)))) (noneIfNeg (fillPurchase col))) = _
  rw [h3, h2, List.map_map, round2, List.map_map]

theorem sat_col_map (col : List (Option ℚ)) :
    ∃ f, roundScore (fillna (median (somes col)) col) = col.map f := by
  obtain ⟨f1, h1⟩ := fillna_as_map (median (somes col)) col
  refine ⟨(fun x => x.map (fun v => (roundHalfEven v : ℚ))) ∘ f1, ?_⟩
  rw [h1, roundScore, List.map_map]

/-- C10: the cleaning pipeline never drops, adds or reorders a row — every
column of the result is an elementwise image of the corresponding input
column (so positions and counts are preserved), and the customer id, name,
phone number and purchase date columns are left untouched.  Duplicates are
never removed: no operation of the pipeline shortens a column. -/
theorem pipeline_preserves_rows (t : Table) :
    ((pipeline t).base.customer_id = t.customer_id) ∧
    ((pipeline t).base.name = t.name) ∧
    ((pipeline t).base.phone_number = t.phone_number) ∧
    ((pipeline t).base.purchase_date = t.purchase_date) ∧
    (∃ f, (pipeline t).base.age = t.age.map f) ∧
    (∃ f, (pipeline t).base.purchase_amount = t.purchase_amount.map f) ∧
    (∃ f, (pipeline t).base.satisfaction_score = t.satisfaction_score.map f) ∧
    (∃ f, (pipeline t).base.email = t.email.map f) ∧
    (∃ f, (pipeline t).base.category = t.category.map f) ∧
    (∃ f, (pipeline t).purchase_month = t.purchase_date.map f) ∧
    (∃ f, (pipeline t).purchase_category = t.purchase_amount.map f) ∧
    (∃ f, (pipeline t).age_group = t.age.map f) := by
  refine ⟨rfl, rfl, rfl, rfl, ?_, ?_, ?_, ?_, ?_, ⟨Date.month, rfl⟩, ?_, ?_⟩
  · exact age_col_map t.age
  · exact purchase_col_map t.purchase_amount
  · exact sat_col_map t.satisfaction_score
  · exact ⟨fun x => some (x.getD "unknown"), rfl⟩
  · exact ⟨fun x => some (x.getD "Other"), rfl⟩
  · obtain ⟨F, hF⟩ := purchase_col_map t.purchase_amount
    refine ⟨(fun x => x.map (qcutLabel (somes (t.purchase_amount.map F)))) ∘ F, ?_⟩
    show purchaseCategory (round2 (repairPurchase t.purchase_amount)) = _
    rw [purchaseCategory, hF, List.map_map]
  · obtain ⟨F, hF⟩ := age_col_map t.age
    refine ⟨(fun x => x.bind ageGroup) ∘ F, ?_⟩
    show ageGroupCol (clipAge (repairAge t.age)) = _
    rw [ageGroupCol, hF, List.map_map]

theorem countP_window (p : ℚ → Bool) :
    ∀ (s : List ℚ) (a b : ℕ), a ≤ b → b ≤ s.length →
      (∀ k, k < a → p (s.getD k 0) = false) →
      (∀ k, a ≤ k → k < b → p (s.getD k 0) = true) →
      (∀ k, b ≤ k → k < s.length → p (s.getD k 0) = false) →
      s.countP p = b - a := by
  intro s
  induction s with
  | nil =>
    intro a b hab hb _ _ _
    simp only [List.length_nil, Nat.le_zero] at hb
    subst hb
    simp at hab
    simp [hab]
  | cons x t ih =>
    intro a b hab hb hlo hmid hhi
    rw [List.countP_cons]
    cases a with
    | zero =>
      cases b with
      | zero =>
        have hx : p x = false := hhi 0 (Nat.le_refl 0) (by simp)
        have ht : t.countP p = 0 := by
          refine ih 0 0 (Nat.le_refl 0) (Nat.zero_le _) (fun k hk => absurd hk (Nat.not_lt_zero k))
            (fun k _ h2 => absurd h2 (Nat.not_lt_zero k)) ?_
          intro k _ hk2
          simpa using hhi (k+1) (Nat.zero_le _) (by simpa using Nat.succ_lt_succ hk2)
        simp [hx, ht]
      | succ b =>
        have hx : p x = true := hmid 0 (Nat.le_refl 0) (Nat.succ_pos b)
        have ht : t.countP p = b - 0 := by
          refine ih 0 b (Nat.zero_le b) (by simpa using hb)
            (fun k hk => absurd hk (Nat.not_lt_zero k)) ?_ ?_
          · intro k _ hk2
            simpa using hmid (k+1) (Nat.zero_le _) (by omega)
          · intro k hk hk2
            simpa using hhi (k+1) (by omega) (by simpa using Nat.succ_lt_succ hk2)
        simp [hx, ht]
    | succ a =>
      cases b with
      | zero => omega
      | succ b =>
        have hx : p x = false := hlo 0 (Nat.succ_pos a)
        have ht : t.countP p = b - a := by
          refine ih a b (by omega) (by simpa using hb) ?_ ?_ ?_
          · intro k hk
            simpa using hlo (k+1) (by omega)
          · intro k hk hk2
            simpa using hmid (k+1) (by omega) (by omega)
          · intro k hk hk2
            simpa using hhi (k+1) (by omega) (by simpa using Nat.succ_lt_succ hk2)
        simp [hx, ht]

theorem sorted_getD_lt {s : List ℚ} (hs : List.Sorted (· < ·) s) {i j : ℕ}
    (hij : i < j) (hj : j < s.length) : s.getD i 0 < s.getD j 0 := by
  have hi : i < s.length := lt_trans hij hj
  rw [List.getD_eq_getElem s 0 hi, List.getD_eq_getElem s 0 hj]
  exact List.pairwise_iff_getElem.mp hs i j hi hj hij

theorem sorted_getD_le {s : List ℚ} (hs : List.Sorted (· < ·) s) {i j : ℕ}
    (hij : i ≤ j) (hj : j < s.length) : s.getD i 0 ≤ s.getD j 0 := by
  rcases Nat.lt_or_ge i j with h | h
  · exact le_of_lt (sorted_getD_lt hs h hj)
  · have : i = j := le_antisymm hij h
    rw [this]



theorem sortCol_sorted (xs : List ℚ) : List.Sorted (· ≤ ·) (sortCol xs) :=
  List.sorted_insertionSort _ xs

theorem sortCol_perm (xs : List ℚ) : List.Perm (sortCol xs) xs :=
  List.perm_insertionSort _ xs

theorem sortCol_length (xs : List ℚ) : (sortCol xs).length = xs.length :=
  (sortCol_perm xs).length_eq

theorem sortCol_strict {xs : List ℚ} (h : xs.Nodup) : List.Sorted (· < ·) (sortCol xs) :=
  (sortCol_sorted xs).lt_of_le ((sortCol_perm xs).nodup_iff.mpr h)

theorem floor_nat_div_four (a : ℕ) : ⌊(a : ℚ) / 4⌋ = ((a / 4 : ℕ) : ℤ) := by
  rw [Int.floor_eq_iff]
  constructor
  · rw [le_div_iff₀ (by norm_num : (0:ℚ) < 4)]
    exact_mod_cast Nat.div_mul_le_self a 4
  · rw [div_lt_iff₀ (by norm_num : (0:ℚ) < 4)]
    have h : a < (a / 4 + 1) * 4 := by omega
    exact_mod_cast h

theorem quantile_def (xs : List ℚ) (p : ℚ) :
    quantile xs p =
      (sortCol xs).getD (⌊((xs.length - 1 : ℕ) : ℚ) * p⌋).toNat 0 +
        (((xs.length - 1 : ℕ) : ℚ) * p - ⌊((xs.length - 1 : ℕ) : ℚ) * p⌋) *
          ((sortCol xs).getD ((⌊((xs.length - 1 : ℕ) : ℚ) * p⌋).toNat + 1)
              ((sortCol xs).getD (⌊((xs.length - 1 : ℕ) : ℚ) * p⌋).toNat 0) -
            (sortCol xs).getD (⌊((xs.length - 1 : ℕ) : ℚ) * p⌋).toNat 0) := rfl

theorem quantile_bounds (xs : List ℚ) (hnd : xs.Nodup) (h4 : 4 ≤ xs.length)
    (k : ℕ) (hk1 : 1 ≤ k) (hk3 : k ≤ 3) :
    (sortCol xs).getD ((xs.length - 1) * k / 4) 0 ≤ quantile xs ((k : ℚ) / 4) ∧
    quantile xs ((k : ℚ) / 4) < (sortCol xs).getD ((xs.length - 1) * k / 4 + 1) 0 := by
  have hslen : (sortCol xs).length = xs.length := sortCol_length xs
  have hsorted : List.Sorted (· < ·) (sortCol xs) := sortCol_strict hnd
  have hcast : ((xs.length - 1 : ℕ) : ℚ) * ((k : ℚ) / 4) = (((xs.length - 1) * k : ℕ) : ℚ) / 4 := by
    push_cast
    ring
  have hfloor : ⌊((xs.length - 1 : ℕ) : ℚ) * ((k : ℚ) / 4)⌋ = (((xs.length - 1) * k / 4 : ℕ) : ℤ) := by
    rw [hcast, floor_nat_div_four]
  have hmk3 : (xs.length - 1) * k / 4 ≤ (xs.length - 1) * 3 / 4 := by
    exact Nat.div_le_div_right (Nat.mul_le_mul_left _ hk3)
  have hmklt : (xs.length - 1) * k / 4 + 1 < xs.length := by omega
  have hγ0 : (0:ℚ) ≤ ((xs.length - 1 : ℕ) : ℚ) * ((k : ℚ) / 4) -
      ⌊((xs.length - 1 : ℕ) : ℚ) * ((k : ℚ) / 4)⌋ := by
    have := Int.floor_le (((xs.length - 1 : ℕ) : ℚ) * ((k : ℚ) / 4))
    linarith
  have hγ1 : ((xs.length - 1 : ℕ) : ℚ) * ((k : ℚ) / 4) -
      ⌊((xs.length - 1 : ℕ) : ℚ) * ((k : ℚ) / 4)⌋ < 1 := by
    have := Int.lt_floor_add_one (((xs.length - 1 : ℕ) : ℚ) * ((k : ℚ) / 4))
    linarith
  have hlohi : (sortCol xs).getD ((xs.length - 1) * k / 4) 0 <
      (sortCol xs).getD ((xs.length - 1) * k / 4 + 1) 0 :=
    sorted_getD_lt hsorted (Nat.lt_succ_self _) (by omega)
  have hdefault : (sortCol xs).getD ((xs.length - 1) * k / 4 + 1)
      ((sortCol xs).getD ((xs.length - 1) * k / 4) 0) =
      (sortCol xs).getD ((xs.length - 1) * k / 4 + 1) 0 := by
    rw [List.getD_eq_getElem (sortCol xs) _
        (by omega : (xs.length - 1) * k / 4 + 1 < (sortCol xs).length),
      List.getD_eq_getElem (sortCol xs) 0
        (by omega : (xs.length - 1) * k / 4 + 1 < (sortCol xs).length)]
  rw [quantile_def, hfloor, Int.toNat_natCast, hdefault]
  rw [hfloor] at hγ0 hγ1
  constructor
  · nlinarith [mul_nonneg hγ0 (le_of_lt (sub_pos.mpr hlohi))]
  · nlinarith [mul_lt_mul_of_pos_right hγ1 (sub_pos.mpr hlohi)]



theorem qcutLabel_low_iff (xs : List ℚ) (v : ℚ) :
    qcutLabel xs v = .Low ↔ v ≤ quantile xs (1/4) := by
  unfold qcutLabel
  split_ifs <;> simp_all

theorem qcutLabel_medium_iff (xs : List ℚ) (v : ℚ) :
    qcutLabel xs v = .Medium ↔ ¬ v ≤ quantile xs (1/4) ∧ v ≤ quantile xs (2/4) := by
  unfold qcutLabel
  split_ifs <;> simp_all

theorem qcutLabel_high_iff (xs : List ℚ) (v : ℚ) :
    qcutLabel xs v = .High ↔
      ¬ v ≤ quantile xs (1/4) ∧ ¬ v ≤ quantile xs (2/4) ∧ v ≤ quantile xs (3/4) := by
  unfold qcutLabel
  split_ifs <;> simp_all

theorem qcutLabel_premium_iff (xs : List ℚ) (v : ℚ) :
    qcutLabel xs v = .Premium ↔
      ¬ v ≤ quantile xs (1/4) ∧ ¬ v ≤ quantile xs (2/4) ∧ ¬ v ≤ quantile xs (3/4) := by
  unfold qcutLabel
  split_ifs <;> simp_all

theorem count_map_label (f : ℚ → PurchaseLabel) (l : PurchaseLabel) (ys : List ℚ) :
    (ys.map f).count l = ys.countP (fun v => decide (f v = l)) := by
  induction ys with
  | nil => rfl
  | cons y t ih =>
    by_cases h : f y = l <;> simp [List.count_cons, List.countP_cons, ih, h]

theorem qcut4_count_eq (xs : List ℚ) (l : PurchaseLabel) :
    (qcut4 xs).count l = (sortCol xs).countP (fun v => decide (qcutLabel xs v = l)) := by
  rw [qcut4, count_map_label]
  exact (((sortCol_perm xs).countP_eq _)).symm



theorem qcut4_counts (xs : List ℚ) (hnd : xs.Nodup) (h4 : 4 ≤ xs.length) :
    (qcut4 xs).count .Low = (xs.length - 1) * 1 / 4 + 1 ∧
    (qcut4 xs).count .Medium = (xs.length - 1) * 2 / 4 - (xs.length - 1) * 1 / 4 ∧
    (qcut4 xs).count .High = (xs.length - 1) * 3 / 4 - (xs.length - 1) * 2 / 4 ∧
    (qcut4 xs).count .Premium = (xs.length - 1) - (xs.length - 1) * 3 / 4 := by
  have hs : List.Sorted (· < ·) (sortCol xs) := sortCol_strict hnd
  have hlen : (sortCol xs).length = xs.length := sortCol_length xs
  have b1 := quantile_bounds xs hnd h4 1 (by norm_num) (by norm_num)
  have b2 := quantile_bounds xs hnd h4 2 (by norm_num) (by norm_num)
  have b3 := quantile_bounds xs hnd h4 3 (by norm_num) (by norm_num)
  rw [show ((1:ℕ) : ℚ) = 1 from by norm_num] at b1
  rw [show ((2:ℕ) : ℚ) = 2 from by norm_num] at b2
  rw [show ((3:ℕ) : ℚ) = 3 from by norm_num] at b3
  have hE12 : (xs.length - 1) * 1 / 4 ≤ (xs.length - 1) * 2 / 4 :=
    Nat.div_le_div_right (Nat.mul_le_mul_left _ (by norm_num))
  have hE23 : (xs.length - 1) * 2 / 4 ≤ (xs.length - 1) * 3 / 4 :=
    Nat.div_le_div_right (Nat.mul_le_mul_left _ (by norm_num))
  have hE3n : (xs.length - 1) * 3 / 4 + 1 ≤ xs.length := by omega
  -- a value at an index at or below an edge floor is at most that quantile
  have below : ∀ (E : ℕ) (q : ℚ), (sortCol xs).getD E 0 ≤ q → ∀ k, k ≤ E → E < xs.length →
      (sortCol xs).getD k 0 ≤ q := by
    intro E q hEq k hk hE
    exact le_trans (sorted_getD_le hs hk (by omega)) hEq
  -- a value at an index above an edge floor is above that quantile
  have above : ∀ (E : ℕ) (q : ℚ), q < (sortCol xs).getD (E + 1) 0 → ∀ k, E + 1 ≤ k →
      k < xs.length → ¬ (sortCol xs).getD k 0 ≤ q := by
    intro E q hEq k hk hkn
    exact not_le.mpr (lt_of_lt_of_le hEq (sorted_getD_le hs hk (by omega)))
  refine ⟨?_, ?_, ?_, ?_⟩
  · rw [qcut4_count_eq]
    have hw := countP_window (fun v => decide (qcutLabel xs v = .Low)) (sortCol xs)
      0 ((xs.length - 1) * 1 / 4 + 1) (by omega) (by omega)
      (fun k hk => absurd hk (Nat.not_lt_zero k))
      (by
        intro k _ hk
        simp only [decide_eq_true_eq, qcutLabel_low_iff]
        exact below _ _ b1.1 k (by omega) (by omega))
      (by
        intro k hk hkn
        simp only [decide_eq_false_iff_not, qcutLabel_low_iff]
        exact above _ _ b1.2 k hk (by omega))
    omega
  · rw [qcut4_count_eq]
    have hw := countP_window (fun v => decide (qcutLabel xs v = .Medium)) (sortCol xs)
      ((xs.length - 1) * 1 / 4 + 1) ((xs.length - 1) * 2 / 4 + 1) (by omega) (by omega)
      (by
        intro k hk
        simp only [decide_eq_false_iff_not, qcutLabel_medium_iff, not_and, not_not]
        intro hcon
        exact absurd (below _ _ b1.1 k (by omega) (by omega)) hcon)
      (by
        intro k hk1 hk2
        simp only [decide_eq_true_eq, qcutLabel_medium_iff]
        exact ⟨above _ _ b1.2 k (by omega) (by omega),
          below _ _ b2.1 k (by omega) (by omega)⟩)
      (by
        intro k hk hkn
        simp only [decide_eq_false_iff_not, qcutLabel_medium_iff, not_and]
        intro _
        exact above _ _ b2.2 k (by omega) (by omega))
    omega
  · rw [qcut4_count_eq]
    have hw := countP_window (fun v => decide (qcutLabel xs v = .High)) (sortCol xs)
      ((xs.length - 1) * 2 / 4 + 1) ((xs.length - 1) * 3 / 4 + 1) (by omega) (by omega)
      (by
        intro k hk
        simp only [decide_eq_false_iff_not, qcutLabel_high_iff, not_and, not_not]
        intro _ hcon
        exact absurd (below _ _ b2.1 k (by omega) (by omega)) hcon)
      (by
        intro k hk1 hk2
        simp only [decide_eq_true_eq, qcutLabel_high_iff]
        refine ⟨above _ _ b1.2 k (by omega) (by omega), above _ _ b2.2 k (by omega) (by omega),
          below _ _ b3.1 k (by omega) (by omega)⟩)
      (by
        intro k hk hkn
        simp only [decide_eq_false_iff_not, qcutLabel_high_iff, not_and]
        intro _ _
        exact above _ _ b3.2 k (by omega) (by omega))
    omega
  · rw [qcut4_count_eq]
    have hw := countP_window (fun v => decide (qcutLabel xs v = .Premium)) (sortCol xs)
      ((xs.length - 1) * 3 / 4 + 1) xs.length (by omega) (by omega)
      (by
        intro k hk
        simp only [decide_eq_false_iff_not, qcutLabel_premium_iff, not_and, not_not]
        intro _ _
        exact below _ _ b3.1 k (by omega) (by omega))
      (by
        intro k hk1 hk2
        simp only [decide_eq_true_eq, qcutLabel_premium_iff]
        refine ⟨above _ _ b1.2 k (by omega) (by omega), above _ _ b2.2 k (by omega) (by omega),
          above _ _ b3.2 k (by omega) (by omega)⟩)
      (by
        intro k hk hkn
        rw [hlen] at hkn
        omega)
    omega



/-- C6: on a cleaned purchase-amount column with no tied values and at least
four entries, `pd.qcut(..., q=4)` with data-dependent quartile edges is
equal-frequency: one label per row, every one of the four labels occurs, and
any two label counts differ by at most one. -/
theorem qcut_equal_frequency (xs : List ℚ) (l₁ l₂ : PurchaseLabel)
    (hnd : xs.Nodup) (h4 : 4 ≤ xs.length) :
    (qcut4 xs).length = xs.length ∧
    1 ≤ (qcut4 xs).count l₁ ∧
    (qcut4 xs).count l₁ ≤ (qcut4 xs).count l₂ + 1 := by
  obtain ⟨hL, hM, hH, hP⟩ := qcut4_counts xs hnd h4
  have hE12 : (xs.length - 1) * 1 / 4 ≤ (xs.length - 1) * 2 / 4 :=
    Nat.div_le_div_right (Nat.mul_le_mul_left _ (by norm_num))
  have hE23 : (xs.length - 1) * 2 / 4 ≤ (xs.length - 1) * 3 / 4 :=
    Nat.div_le_div_right (Nat.mul_le_mul_left _ (by norm_num))
  refine ⟨by simp [qcut4], ?_, ?_⟩ <;>
    cases l₁ <;> cases l₂ <;> simp only [hL, hM, hH, hP] <;> omega

/-- Witness for C6 on the concrete tie-free column [1, 2, 3, 4, 5]. -/
theorem qcut_equal_frequency_witness :
    (qcut4 [1, 2, 3, 4, 5]).length = [(1:ℚ), 2, 3, 4, 5].length ∧
    1 ≤ (qcut4 [1, 2, 3, 4, 5]).count PurchaseLabel.Low ∧
    (qcut4 [1, 2, 3, 4, 5]).count PurchaseLabel.Low ≤
      (qcut4 [1, 2, 3, 4, 5]).count PurchaseLabel.Premium + 1 :=
  qcut_equal_frequency [1, 2, 3, 4, 5] PurchaseLabel.Low PurchaseLabel.Premium
    (by norm_num) (by norm_num)

end DataPrep
